import Mathlib

/-!
createNewRecord.js: page-reference derivation, readiness and record creation

A shallow embedding of the Lightning web component
`force-app/main/default/lwc/createNewRecord/createNewRecord.js`.

* JavaScript objects are association lists of own properties in insertion
  order (`Props`); `Props.set` is the `[[Set]]` of a data property and
  `Object.assign` is the library function of the same name.
* The component instance is the record `Component`; a method is a function
  from the component (and its arguments) to the new component and the list of
  outbound calls it makes (`Effect`).
* Promise continuations (`.then` / `.catch`) are separate functions that the
  host runs when the promise settles.
* `Heap` is a second, reference-level model of the objects involved in
  `getUpdatedPageReference`, used to state that nothing that existed before
  the call is written to.
-/

namespace CreateNewRecord

/-! ## JavaScript objects -/

/-- Own enumerable string-keyed properties of a JavaScript object, in the order in which they
were created. (JavaScript lists integer-like keys before the others; no definition below depends
on the order, and what is proved of an object is proved of its keys and their values.) -/
abbrev Props (α : Type) := List (String × α)

namespace Props

variable {α : Type}

/-- The own property `k` of `o`, if there is one. -/
def lookup : Props α → String → Option α
  | [], _ => none
  | (k', v) :: rest, k => if k' = k then some v else lookup rest k

/-- The test `Object.prototype.hasOwnProperty.call(o, k)` (for these objects also `k in o`). -/
def hasOwn (o : Props α) (k : String) : Bool := (o.lookup k).isSome

/-- The names of the own properties, as `Object.keys(o)` lists them. -/
def keys (o : Props α) : List String := o.map Prod.fst

/-- The assignment `o[k] = v`: an existing property keeps its place and takes the new value,
a new property is added at the end. -/
def set : Props α → String → α → Props α
  | [], k, v => [(k, v)]
  | (k', v') :: rest, k, v => if k' = k then (k', v) :: rest else (k', v') :: set rest k v

/-- One source of `Object.assign`: every own property of `source` is assigned to `target`,
in order. A property whose value is `undefined` is assigned like any other. -/
def assignFrom (target source : Props α) : Props α :=
  source.foldl (fun t kv => t.set kv.1 kv.2) target

/-- An object has at most one own property of a given name. -/
def WF (o : Props α) : Prop := o.keys.Nodup

instance (o : Props α) : Decidable (WF o) := by
  unfold WF; infer_instance

end Props

/-- The library function `Object.assign(target, ...sources)`: the sources are applied from left to
right; a source that is `undefined` (`none`) is skipped. The value is the updated target. -/
def Object.assign {α : Type} (target : Props α) (sources : List (Option (Props α))) : Props α :=
  sources.foldl (fun t s => match s with
    | none => t
    | some src => Props.assignFrom t src) target

/-- The values a page-state property holds: a string, or `undefined`. -/
inductive JSVal where
  | undefined
  | str (s : String)
  deriving DecidableEq, Repr

/-- A JavaScript object whose property values are strings or `undefined`. -/
abbrev JSObject := Props JSVal

/-- The property read `o[k]`: `undefined` when `o` has no such property. -/
def JSObject.get (o : JSObject) (k : String) : JSVal :=
  (Props.lookup o k).getD JSVal.undefined

/-- The comparison `v == s` of a page-state value with a string literal. -/
def JSVal.looseEqStr : JSVal → String → Bool
  | JSVal.undefined, _ => false
  | JSVal.str t, s => t = s

/-! ## Data model -/

/-- A page reference: `type`, `attributes` and the optional `state` (`none`: no such property). -/
structure PageReference where
  type : String
  attributes : JSObject
  state : Option JSObject
  deriving DecidableEq, Repr

/-- The entries of the `state` of a page reference; none when it has no `state`. -/
def PageReference.stateProps (r : PageReference) : JSObject :=
  r.state.getD []

/-- An override object all of whose values are concrete strings. -/
def stringChanges (overrides : Props String) : JSObject :=
  overrides.map (fun kv => (kv.1, JSVal.str kv.2))

/-- The fields of the component instance. `connected` and `generateUrlOnConnected` are only ever
`undefined` or `true` and only tested for truth: `false` stands for `undefined`. For the other
fields `none` stands for `undefined`. -/
structure Component where
  accountId : Option String
  name : String
  url : Option String
  currentPageReference : Option PageReference
  showPanelUrl : Option String
  noPanelUrl : Option String
  connected : Bool
  generateUrlOnConnected : Bool
  accountHomePageRef : Option PageReference
  recordId : JSVal
  deriving DecidableEq, Repr

/-- The component right after construction: `name = ''`, every other field `undefined`. -/
def Component.fresh : Component :=
  { accountId := none, name := "", url := none, currentPageReference := none,
    showPanelUrl := none, noPanelUrl := none, connected := false,
    generateUrlOnConnected := false, accountHomePageRef := none, recordId := JSVal.undefined }

/-! ## Page-reference derivation (lines 33-76) -/

/-- The method `getUpdatedPageReference(stateChanges)`. `none` is the `TypeError` of reading
`.state` of an `undefined` current page reference. -/
def getUpdatedPageReference (this : Component) (stateChanges : JSObject) : Option PageReference :=
  match this.currentPageReference with
  | none => none
  | some cpr =>
    some { cpr with state := some (Object.assign [] [cpr.state, some stateChanges]) }

/-- The getter `showPanelPageReference`. -/
def showPanelPageReference (this : Component) : Option PageReference :=
  getUpdatedPageReference this [("c__showPanel", JSVal.str "true")]

/-- The getter `noPanelPageReference`. -/
def noPanelPageReference (this : Component) : Option PageReference :=
  getUpdatedPageReference this [("c__showPanel", JSVal.undefined)]

/-- The result of the getter `showPanel`: `this.currentPageReference && (... == 'true')` is the
(falsy) left operand when there is no current page reference, a boolean otherwise. -/
inductive ShowPanelValue where
  | undefined
  | bool (b : Bool)
  deriving DecidableEq, Repr

/-- The truth value a template condition sees. -/
def ShowPanelValue.truthy : ShowPanelValue → Bool
  | ShowPanelValue.undefined => false
  | ShowPanelValue.bool b => b

/-- The getter `showPanel`. `none` is the `TypeError` of reading `c__showPanel` of an `undefined`
state. -/
def showPanel (this : Component) : Option ShowPanelValue :=
  match this.currentPageReference with
  | none => some ShowPanelValue.undefined
  | some cpr =>
    match cpr.state with
    | none => none
    | some st => some (ShowPanelValue.bool ((st.get "c__showPanel").looseEqStr "true"))

/-! ## Outbound calls -/

/-- The component field a resolved URL is stored in by the `.then` callback of a
`NavigationMixin.GenerateUrl` request. -/
inductive UrlSlot where
  | showPanelUrl
  | noPanelUrl
  | url
  deriving DecidableEq, Repr

/-- Modelled from the spec: the schema import `@salesforce/schema/Customer__c` is supplied by the
platform; it names the customer object. -/
structure ObjectId where
  objectApiName : String
  deriving DecidableEq, Repr

/-- Modelled from the spec: the schema import `@salesforce/schema/Customer__c.Full_Name__c` is
supplied by the platform; it names the field `Full_Name__c` of the customer object. -/
structure FieldId where
  objectApiName : String
  fieldApiName : String
  deriving DecidableEq, Repr

/-- Modelled from the spec: the value of the import `CUSTOMER__C_OBJECT`. -/
def CUSTOMER__C_OBJECT : ObjectId := { objectApiName := "Customer__c" }

/-- Modelled from the spec: the value of the import `FULL_NAME__C_FIELD`. -/
def FULL_NAME__C_FIELD : FieldId :=
  { objectApiName := "Customer__c", fieldApiName := "Full_Name__c" }

/-- The argument of `createRecord`: `{ apiName, fields }`. -/
structure RecordInput where
  apiName : String
  fields : Props String
  deriving DecidableEq, Repr

/-- The argument of `new ShowToastEvent(...)`. -/
structure ShowToastEvent where
  title : String
  message : String
  variant : String
  deriving DecidableEq, Repr

/-- The calls the component makes to its collaborators. -/
inductive Effect where
  | generateUrl (ref : PageReference) (slot : UrlSlot)
  | navigate (ref : PageReference) (replace : Bool)
  | createRecord (recordInput : RecordInput)
  | dispatchEvent (toast : ShowToastEvent)
  | consoleLog (msg : String)
  | preventDefault
  | stopPropagation
  deriving DecidableEq, Repr

/-- The toasts among a list of calls. -/
def toasts : List Effect → List ShowToastEvent
  | [] => []
  | Effect.dispatchEvent t :: rest => t :: toasts rest
  | _ :: rest => toasts rest

/-- The URL-resolution requests among a list of calls. -/
def urlRequests : List Effect → List (PageReference × UrlSlot)
  | [] => []
  | Effect.generateUrl r s :: rest => (r, s) :: urlRequests rest
  | _ :: rest => urlRequests rest

/-! ## Readiness (lines 14-28, 40-45, 78-86, 104-118) -/

/-- The method `generateUrls()`: two URL-resolution requests, whose `.then` callbacks store the
URL in `showPanelUrl` and `noPanelUrl`. `none`: a getter threw, before any request was made. -/
def generateUrls (this : Component) : Option (List Effect) :=
  match showPanelPageReference this with
  | none => none
  | some showRef =>
    match noPanelPageReference this with
    | none => none
    | some noRef =>
      some [Effect.generateUrl showRef UrlSlot.showPanelUrl,
            Effect.generateUrl noRef UrlSlot.noPanelUrl]

/-- The calls of a `this.generateUrls()` statement; none when it throws. -/
def generateUrlsCalls (this : Component) : List Effect :=
  match generateUrls this with
  | some calls => calls
  | none => []

/-- The wired method `setCurrentPageReference(currentPageReference)`. -/
def setCurrentPageReference (this : Component) (currentPageReference : PageReference) :
    Component × List Effect :=
  let this1 := { this with currentPageReference := some currentPageReference }
  if this1.connected then
    (this1, generateUrlsCalls this1)
  else
    ({ this1 with generateUrlOnConnected := true }, [])

/-- The first definition of `connectedCallback` in the class body (lines 78-86). The second
definition of the same name replaces it when the class is evaluated. -/
def connectedCallback_shadowed (this : Component) : Component × List Effect :=
  let this1 := { this with connected := true }
  if this1.generateUrlOnConnected then
    (this1, generateUrlsCalls this1)
  else
    (this1, [])

/-- The page reference literal stored in `accountHomePageRef`. -/
def accountHomePageRefLiteral : PageReference :=
  { type := "standard__objectPage",
    attributes := [("objectApiName", JSVal.str "Account"), ("actionName", JSVal.str "home")],
    state := none }

/-- The second definition of `connectedCallback` (lines 104-118): the method the class has. -/
def connectedCallback (this : Component) : Component × List Effect :=
  let this1 := { this with accountHomePageRef := some accountHomePageRefLiteral }
  (this1, [Effect.generateUrl accountHomePageRefLiteral UrlSlot.url])

/-- The `.then` callback of a URL-resolution request: `url => this.<slot> = url`. -/
def storeUrl (this : Component) (slot : UrlSlot) (url : String) : Component :=
  match slot with
  | UrlSlot.showPanelUrl => { this with showPanelUrl := some url }
  | UrlSlot.noPanelUrl => { this with noPanelUrl := some url }
  | UrlSlot.url => { this with url := some url }

/-! ## Record creation (lines 162-190) -/

/-- The method `handleNameChange(event)`; `value` is `event.target.value`. -/
def handleNameChange (this : Component) (value : String) : Component :=
  { this with accountId := none, name := value }

/-- The synchronous part of `createAccount()`: the call of `createRecord`. -/
def createAccount (this : Component) : Component × List Effect :=
  let fields : Props String := Props.set [] FULL_NAME__C_FIELD.fieldApiName this.name
  let recordInput : RecordInput := { apiName := CUSTOMER__C_OBJECT.objectApiName, fields := fields }
  (this, [Effect.createRecord recordInput])

/-- The record the adapter fulfils with. -/
structure RecordRepresentation where
  id : String
  deriving DecidableEq, Repr

/-- The error the adapter rejects with: `error.body.message`. -/
structure ErrorBody where
  message : String
  deriving DecidableEq, Repr

/-- The error the adapter rejects with. -/
structure FetchError where
  body : ErrorBody
  deriving DecidableEq, Repr

/-- The `.then` callback of `createAccount()`, run on the component as it is when the promise
fulfils. -/
def createAccount_then (this : Component) (customer__c : RecordRepresentation) :
    Component × List Effect :=
  ({ this with accountId := some customer__c.id },
   [Effect.dispatchEvent { title := "Success", message := "Account created", variant := "success" }])

/-- The `.catch` callback of `createAccount()`, run when the promise rejects. -/
def createAccount_catch (this : Component) (error : FetchError) : Component × List Effect :=
  (this,
   [Effect.dispatchEvent
      { title := "Error creating record", message := error.body.message, variant := "error" }])

/-! ## The component as an event-driven machine -/

/-- The component together with the calls it has made so far and the URL-resolution requests
that have not settled yet. -/
structure Sys where
  comp : Component
  log : List Effect
  pending : List UrlSlot
  deriving DecidableEq, Repr

/-- The events of the readiness protocol: the wire adapter delivers a page reference, the view is
attached, the `i`-th pending URL-resolution request fulfils with `url`. -/
inductive Event where
  | pageReference (ref : PageReference)
  | attached
  | urlResolved (i : Nat) (url : String)
  deriving DecidableEq, Repr

/-- A freshly constructed component that has made no call. -/
def Sys.fresh : Sys := { comp := Component.fresh, log := [], pending := [] }

/-- Record the calls of a handler. -/
def Sys.after (s : Sys) (r : Component × List Effect) : Sys :=
  { comp := r.1, log := s.log ++ r.2, pending := s.pending ++ (urlRequests r.2).map Prod.snd }

/-- One event, for a class whose `connectedCallback` is `cc`. -/
def step (cc : Component → Component × List Effect) (s : Sys) : Event → Sys
  | Event.pageReference ref => s.after (setCurrentPageReference s.comp ref)
  | Event.attached => s.after (cc s.comp)
  | Event.urlResolved i url =>
    match s.pending[i]? with
    | none => s
    | some slot => { s with comp := storeUrl s.comp slot url, pending := s.pending.eraseIdx i }

/-- A sequence of events, from left to right. -/
def run (cc : Component → Component × List Effect) (s : Sys) (events : List Event) : Sys :=
  events.foldl (step cc) s

/-- The number of times `generateUrls` has run: each run makes exactly one request whose URL goes
to `showPanelUrl`, and nothing else makes such a request. -/
def generateUrlsRuns (s : Sys) : Nat :=
  ((urlRequests s.log).filter (fun r => decide (r.2 = UrlSlot.showPanelUrl))).length

/-! ## Reference-level model of the derivation

Objects live in a heap and are named by their address; `Object.assign` writes to its target in
place. This is the level at which "the base page reference is not mutated" says something. -/

/-- A property value at the reference level: `undefined`, a string, or the address of an object. -/
inductive HVal where
  | undefined
  | str (s : String)
  | ref (a : Nat)
  deriving DecidableEq, Repr

/-- The heap: the object at address `a` is the `a`-th entry. -/
abbrev Heap := List (Props HVal)

namespace Heap

/-- Evaluate an object literal with the given properties: a new object at a fresh address. -/
def alloc (h : Heap) (o : Props HVal) : Heap × Nat := (h ++ [o], h.length)

/-- Update the object at address `a` in place. -/
def write (h : Heap) (a : Nat) (f : Props HVal → Props HVal) : Heap :=
  match h[a]? with
  | some o => h.set a (f o)
  | none => h

/-- The own enumerable properties `Object.assign` copies from a source value: none for
`undefined`, the index properties for a string (one per character), the properties of the object
for a reference. -/
def ownProps (h : Heap) : HVal → Props HVal
  | HVal.undefined => []
  | HVal.str s => s.toList.enum.map (fun ic => (toString ic.1, HVal.str (String.singleton ic.2)))
  | HVal.ref a => h[a]?.getD []

/-- The library function `Object.assign(target, ...sources)` on the heap: the target object is
written in place, once per source, from left to right. -/
def objectAssign (h : Heap) (target : Nat) (sources : List HVal) : Heap :=
  sources.foldl (fun h1 s => h1.write target (fun o => Props.assignFrom o (h1.ownProps s))) h

/-- The property read `o.k` of the object at address `a`. -/
def getProp (h : Heap) (a : Nat) (k : String) : HVal :=
  (Props.lookup (h[a]?.getD []) k).getD HVal.undefined

end Heap

/-- The method `getUpdatedPageReference(stateChanges)` at the reference level.
`currentPageReference` is the value of `this.currentPageReference` (`none`: `undefined`, else the
address of the object) and `stateChanges` the address of the argument. The value is the heap after
the call and the address of the returned object; `none` is the `TypeError`. The steps follow the
evaluation order of the expression: the outer `{}`, the object literal, the inner `{}`, the read
of `.state`, the inner `Object.assign`, the `state` property of the literal, the outer
`Object.assign`. -/
def getUpdatedPageReferenceH (h : Heap) (currentPageReference : Option Nat) (stateChanges : Nat) :
    Option (Heap × Nat) :=
  let (h1, outer) := h.alloc []
  match currentPageReference with
  | none => none
  | some cpr =>
    let (h2, literal) := h1.alloc []
    let (h3, inner) := h2.alloc []
    let state := h3.getProp cpr "state"
    let h4 := h3.objectAssign inner [state, HVal.ref stateChanges]
    let h5 := h4.write literal (fun o => o.set "state" (HVal.ref inner))
    let h6 := h5.objectAssign outer [HVal.ref cpr, HVal.ref literal]
    some (h6, outer)

/-- The getter `showPanelPageReference` at the reference level: the argument literal is allocated,
then the method is called. -/
def showPanelPageReferenceH (h : Heap) (currentPageReference : Option Nat) : Option (Heap × Nat) :=
  let (h1, stateChanges) := h.alloc [("c__showPanel", HVal.str "true")]
  getUpdatedPageReferenceH h1 currentPageReference stateChanges

/-- The getter `noPanelPageReference` at the reference level. -/
def noPanelPageReferenceH (h : Heap) (currentPageReference : Option Nat) : Option (Heap × Nat) :=
  let (h1, stateChanges) := h.alloc [("c__showPanel", HVal.undefined)]
  getUpdatedPageReferenceH h1 currentPageReference stateChanges

/-- The page-state value a heap value stands for, if it is one. -/
def HVal.toJSVal : HVal → Option JSVal
  | HVal.undefined => some JSVal.undefined
  | HVal.str s => some (JSVal.str s)
  | HVal.ref _ => none

/-- The embedding of page-state values in heap values. -/
def HVal.ofJSVal : JSVal → HVal
  | JSVal.undefined => HVal.undefined
  | JSVal.str s => HVal.str s

/-- The heap object that holds the properties of a flat object. -/
def HVal.ofJSObject (o : JSObject) : Props HVal := o.map (fun kv => (kv.1, HVal.ofJSVal kv.2))

/-- The flat object a list of heap properties stands for, if none of the values is a
reference. -/
def HVal.readProps : Props HVal → Option JSObject
  | [] => some []
  | (k, v) :: rest =>
    match HVal.toJSVal v, HVal.readProps rest with
    | some v1, some rest1 => some ((k, v1) :: rest1)
    | _, _ => none

/-- The flat object stored at address `a`. -/
def Heap.readObject (h : Heap) (a : Nat) : Option JSObject :=
  match h[a]? with
  | some o => HVal.readProps o
  | none => none

/-- The `state` of the page reference object `o`: absent, or the flat object it refers to. -/
def Heap.readState (h : Heap) (o : Props HVal) : Option (Option JSObject) :=
  match Props.lookup o "state" with
  | none => some none
  | some HVal.undefined => some none
  | some (HVal.ref a) =>
    match h.readObject a with
    | some st => some (some st)
    | none => none
  | some (HVal.str _) => none

/-- The page reference stored at address `a`: a well-formed object with a string `type`, an
`attributes` object and an optional `state` object. -/
def Heap.readPageReference (h : Heap) (a : Nat) : Option PageReference :=
  match h[a]? with
  | none => none
  | some o =>
    if o.WF then
      match Props.lookup o "type", Props.lookup o "attributes", h.readState o with
      | some (HVal.str t), some (HVal.ref x), some st =>
        match h.readObject x with
        | some attrs => some { type := t, attributes := attrs, state := st }
        | none => none
      | _, _, _ => none
    else none

/-- What holds of the class as written after any events: it is not `connected`, the panel URLs
are unset, and every URL-resolution request, settled or pending, is the one for the account home
page. -/
def AsWritten (s : Sys) : Prop :=
  s.comp.connected = false ∧ s.comp.showPanelUrl = none ∧ s.comp.noPanelUrl = none ∧
  (∀ r ∈ urlRequests s.log, r = (accountHomePageRefLiteral, UrlSlot.url)) ∧
  (∀ slot ∈ s.pending, slot = UrlSlot.url)

/-! ## Sample values -/

/-- A page reference whose state is `a: "1"`. -/
def samplePageReference : PageReference :=
  { type := "standard__navItemPage", attributes := [("apiName", JSVal.str "Home")],
    state := some [("a", JSVal.str "1")] }

/-- A component whose current page reference is `samplePageReference`. -/
def sampleComponent : Component :=
  { Component.fresh with currentPageReference := some samplePageReference }

/-- A page reference whose state is `k: "x", j: "y"`. -/
def twoKeyPageReference : PageReference :=
  { type := "standard__navItemPage", attributes := [("apiName", JSVal.str "Home")],
    state := some [("k", JSVal.str "x"), ("j", JSVal.str "y")] }

/-- A component whose current page reference is `twoKeyPageReference`. -/
def twoKeyComponent : Component :=
  { Component.fresh with currentPageReference := some twoKeyPageReference }

/-- A page reference whose state is `c__showPanel: "true"`. -/
def panelPageReference : PageReference :=
  { type := "standard__navItemPage", attributes := [("apiName", JSVal.str "Home")],
    state := some [("c__showPanel", JSVal.str "true")] }

/-- A component whose current page reference is `panelPageReference`. -/
def panelComponent : Component :=
  { Component.fresh with currentPageReference := some panelPageReference }

/-- A component that holds the identifier of a record created under the name `Acme`. -/
def createdComponent : Component :=
  (createAccount_then (handleNameChange Component.fresh "Acme") { id := "a00000000000001" }).1

/-- An adapter error with the message `duplicate value`. -/
def sampleError : FetchError := { body := { message := "duplicate value" } }

/-- A heap that holds the component instance (address 0), the page reference
`samplePageReference` (address 1), its attributes and state (addresses 2 and 3) and the override
object `a: "2", b: "3"` (address 4). -/
def sampleHeap : Heap :=
  [[("name", HVal.str ""), ("currentPageReference", HVal.ref 1)],
   [("type", HVal.str "standard__navItemPage"), ("attributes", HVal.ref 2),
    ("state", HVal.ref 3)],
   [("apiName", HVal.str "Home")],
   [("a", HVal.str "1")],
   [("a", HVal.str "2"), ("b", HVal.str "3")]]

/-! ## Properties of objects and `Object.assign` -/

namespace Props
variable {α : Type}

theorem lookup_set_self (o : Props α) (k : String) (v : α) : (o.set k v).lookup k = some v := by
  induction o with
  | nil => simp [set, lookup]
  | cons p rest ih =>
    obtain ⟨k', v'⟩ := p
    by_cases h : k' = k
    · simp [set, lookup, h]
    · simp [set, lookup, h, ih]

theorem lookup_set_ne (o : Props α) {k j : String} (h : k ≠ j) (v : α) :
    (o.set k v).lookup j = o.lookup j := by
  induction o with
  | nil => simp [set, lookup, h]
  | cons p rest ih =>
    obtain ⟨k', v'⟩ := p
    by_cases hk : k' = k
    · subst hk; simp [set, lookup, h]
    · by_cases hj : k' = j
      · subst hj; simp [set, lookup, hk]
      · simp [set, lookup, hk, hj, ih]

theorem lookup_eq_none_iff (o : Props α) (k : String) : o.lookup k = none ↔ k ∉ o.keys := by
  induction o with
  | nil => simp [lookup, keys]
  | cons p rest ih =>
    obtain ⟨k', v'⟩ := p
    by_cases h : k' = k
    · simp [lookup, keys, h]
    · have h' : ¬ k = k' := fun e => h e.symm
      simpa [lookup, keys, h, h'] using ih

theorem mem_of_lookup (o : Props α) (k : String) (v : α) (h : o.lookup k = some v) :
    (k, v) ∈ o := by
  induction o with
  | nil => simp [lookup] at h
  | cons p rest ih =>
    obtain ⟨k', v'⟩ := p
    by_cases hk : k' = k
    · simp [lookup, hk] at h; simp [hk, h]
    · simp [lookup, hk] at h; exact List.mem_cons_of_mem _ (ih h)

theorem lookup_of_mem (o : Props α) (hwf : o.WF) (k : String) (v : α) (h : (k, v) ∈ o) :
    o.lookup k = some v := by
  induction o with
  | nil => simp at h
  | cons p rest ih =>
    obtain ⟨k', v'⟩ := p
    have hnd : k' ∉ keys rest ∧ (keys rest).Nodup := by
      simpa [WF, keys] using hwf
    rcases List.mem_cons.mp h with h1 | h1
    · cases h1; simp [lookup]
    · have hk : k' ≠ k := by
        intro e; subst e
        exact hnd.1 (List.mem_map.mpr ⟨(k', v), h1, rfl⟩)
      simp [lookup, hk]; exact ih hnd.2 h1

theorem set_of_not_mem (o : Props α) (k : String) (v : α) (h : k ∉ o.keys) :
    o.set k v = o ++ [(k, v)] := by
  induction o with
  | nil => simp [set]
  | cons p rest ih =>
    obtain ⟨k', v'⟩ := p
    have h1 : k' ≠ k := by intro e; apply h; simp [keys, e]
    have h2 : k ∉ keys rest := by intro e; apply h; simp [keys] at e ⊢; exact Or.inr e
    simp [set, h1, ih h2]

theorem set_of_lookup (o : Props α) (k : String) (v : α) (h : o.lookup k = some v) :
    o.set k v = o := by
  induction o with
  | nil => simp [lookup] at h
  | cons p rest ih =>
    obtain ⟨k', v'⟩ := p
    by_cases hk : k' = k
    · simp [lookup, hk] at h; simp [set, hk, h]
    · simp [lookup, hk] at h; simp [set, hk, ih h]

theorem keys_set (o : Props α) (k : String) (v : α) :
    (o.set k v).keys = if k ∈ o.keys then o.keys else o.keys ++ [k] := by
  induction o with
  | nil => simp [set, keys]
  | cons p rest ih =>
    obtain ⟨k', v'⟩ := p
    by_cases hk : k' = k
    · simp [set, keys, hk]
    · have hk' : ¬ k = k' := fun e => hk e.symm
      have ih' := ih
      simp only [keys] at ih'
      by_cases hm : k ∈ List.map Prod.fst rest
      · simp [set, keys, hk, hk', hm] at ih' ⊢; exact ih'
      · simp [set, keys, hk, hk', hm] at ih' ⊢; exact ih'

theorem WF_set (o : Props α) (k : String) (v : α) (h : o.WF) : (o.set k v).WF := by
  unfold WF at *
  rw [keys_set]
  split
  · exact h
  · rename_i hm
    exact List.Nodup.append h (List.nodup_singleton k) (by simpa using hm)

theorem WF_assignFrom (t s : Props α) (h : t.WF) : (assignFrom t s).WF := by
  unfold assignFrom
  induction s generalizing t with
  | nil => simpa using h
  | cons p rest ih => simpa using ih _ (WF_set t p.1 p.2 h)

theorem lookup_assignFrom (t s : Props α) (hs : s.WF) (k : String) :
    (assignFrom t s).lookup k = match s.lookup k with
      | some v => some v
      | none => t.lookup k := by
  unfold assignFrom
  induction s generalizing t with
  | nil => simp [lookup]
  | cons p rest ih =>
    obtain ⟨k', v'⟩ := p
    have hnd : k' ∉ keys rest ∧ (keys rest).Nodup := by
      simpa [WF, keys] using hs
    simp only [List.foldl_cons]
    rw [ih _ hnd.2]
    by_cases hk : k' = k
    · subst hk
      have : lookup rest k' = none := (lookup_eq_none_iff rest k').mpr hnd.1
      simp [this, lookup, lookup_set_self]
    · simp [lookup, hk, lookup_set_ne _ hk]

theorem assignFrom_append (t s : Props α) (hs : s.WF) (hd : ∀ k, k ∈ s.keys → k ∉ t.keys) :
    assignFrom t s = t ++ s := by
  unfold assignFrom
  induction s generalizing t with
  | nil => simp
  | cons p rest ih =>
    obtain ⟨k', v'⟩ := p
    have hnd : k' ∉ keys rest ∧ (keys rest).Nodup := by
      simpa [WF, keys] using hs
    simp only [List.foldl_cons]
    have h1 : k' ∉ t.keys := hd k' (by simp [keys])
    rw [set_of_not_mem t k' v' h1]
    rw [ih _ hnd.2]
    · simp
    · intro k hk hk2
      simp only [keys, List.map_append, List.mem_append, List.map_cons, List.map_nil,
        List.mem_singleton] at hk2
      rcases hk2 with h2 | h2
      · exact hd k (by simp [keys] at hk ⊢; exact Or.inr hk) (by simpa [keys] using h2)
      · subst h2; exact hnd.1 hk

theorem assignFrom_nil (s : Props α) (hs : s.WF) : assignFrom [] s = s := by
  rw [assignFrom_append [] s hs (by intro k _; simp [keys])]; simp

end Props

/-! ## Page-reference derivation -/

theorem keys_stringChanges (overrides : Props String) :
    Props.keys (stringChanges overrides) = Props.keys overrides := by
  simp [stringChanges, Props.keys, Function.comp_def]

theorem getUpdatedPageReference_eq (this : Component) (base : PageReference)
    (hcur : this.currentPageReference = some base) (stateChanges : JSObject) :
    getUpdatedPageReference this stateChanges =
      some { type := base.type, attributes := base.attributes,
             state := some (Props.assignFrom (Props.assignFrom [] base.stateProps) stateChanges) } := by
  unfold getUpdatedPageReference
  rw [hcur]
  cases hs : base.state <;>
    simp [Object.assign, PageReference.stateProps, hs, Props.assignFrom]

theorem lookup_derived_state (st changes : JSObject) (hst : st.WF) (hch : changes.WF)
    (k : String) :
    Props.lookup (Props.assignFrom (Props.assignFrom [] st) changes) k =
      match Props.lookup changes k with
      | some v => some v
      | none => Props.lookup st k := by
  rw [Props.lookup_assignFrom _ _ hch, Props.assignFrom_nil _ hst]
  cases Props.lookup changes k <;> rfl

/-- C1: with a current page reference `base` and overrides that are all concrete strings,
`getUpdatedPageReference` returns a page reference with the `type` and `attributes` of `base`
whose `state` is the right-biased merge: each override key holds its override value, each other
key holds what `base.state` holds (nothing if `base.state` has no such key); a single override
`k: v` for a key that `base.state` lacks gives the entries of `base.state` and the entry
`k: v`. -/
theorem getUpdatedPageReference_merges (this : Component) (base : PageReference)
    (overrides : Props String)
    (hcur : this.currentPageReference = some base)
    (hstate : base.stateProps.WF) (hov : overrides.WF) :
    ∃ st : JSObject,
      getUpdatedPageReference this (stringChanges overrides) =
        some { type := base.type, attributes := base.attributes, state := some st } ∧
      st.WF ∧
      (∀ k v, (k, v) ∈ overrides → Props.lookup st k = some (JSVal.str v)) ∧
      (∀ k, k ∉ Props.keys overrides → Props.lookup st k = Props.lookup base.stateProps k) ∧
      (∀ k v, overrides = [(k, v)] → Props.hasOwn base.stateProps k = false →
        List.Perm st (base.stateProps ++ [(k, JSVal.str v)])) := by
  have hch : (stringChanges overrides).WF := by
    unfold Props.WF; rw [keys_stringChanges]; exact hov
  refine ⟨_, getUpdatedPageReference_eq this base hcur _, ?_, ?_, ?_, ?_⟩
  · exact Props.WF_assignFrom _ _ (Props.WF_assignFrom _ _ (by simp [Props.WF, Props.keys]))
  · intro k v hmem
    have hm : (k, JSVal.str v) ∈ stringChanges overrides :=
      List.mem_map.mpr ⟨(k, v), hmem, rfl⟩
    rw [lookup_derived_state _ _ hstate hch, Props.lookup_of_mem _ hch k _ hm]
  · intro k hk
    have hnone : Props.lookup (stringChanges overrides) k = none := by
      rw [Props.lookup_eq_none_iff, keys_stringChanges]; exact hk
    rw [lookup_derived_state _ _ hstate hch, hnone]
  · intro k v hov1 hno
    subst hov1
    have hk : k ∉ Props.keys base.stateProps := by
      rw [← Props.lookup_eq_none_iff]
      simpa [Props.hasOwn] using hno
    rw [Props.assignFrom_nil _ hstate]
    simp [stringChanges, Props.assignFrom, Props.set_of_not_mem _ _ _ hk]

/-- C1, at a concrete input: state `a: "1"`, overrides `a: "2", b: "3"`. -/
theorem getUpdatedPageReference_merges_witness :
    ∃ st : JSObject,
      getUpdatedPageReference sampleComponent (stringChanges [("a", "2"), ("b", "3")]) =
        some { type := samplePageReference.type, attributes := samplePageReference.attributes,
               state := some st } ∧
      st.WF ∧
      (∀ k v, (k, v) ∈ [("a", "2"), ("b", "3")] → Props.lookup st k = some (JSVal.str v)) ∧
      (∀ k, k ∉ Props.keys [("a", "2"), ("b", "3")] →
        Props.lookup st k = Props.lookup samplePageReference.stateProps k) ∧
      (∀ k v, [("a", "2"), ("b", "3")] = [(k, v)] →
        Props.hasOwn samplePageReference.stateProps k = false →
        List.Perm st (samplePageReference.stateProps ++ [(k, JSVal.str v)])) :=
  getUpdatedPageReference_merges sampleComponent samplePageReference
    [("a", "2"), ("b", "3")] rfl (by decide) (by decide)

/-- C2, on the code: the key is not removed. For the state `k: "x", j: "y"` the override
`k: undefined` gives the state `k: undefined, j: "y"`, in which `k` is still an own property, and
for the state `c__showPanel: "true"` the getter `noPanelPageReference` gives the state
`c__showPanel: undefined`, whose keys are still `c__showPanel`, where the comments of lines
55-59 and 72-73 say that the property is removed from the state. -/
theorem undefined_override_keeps_key :
    getUpdatedPageReference twoKeyComponent [("k", JSVal.undefined)] =
      some { type := twoKeyPageReference.type, attributes := twoKeyPageReference.attributes,
             state := some [("k", JSVal.undefined), ("j", JSVal.str "y")] } ∧
    Props.hasOwn [("k", JSVal.undefined), ("j", JSVal.str "y")] "k" = true ∧
    Props.keys [("k", JSVal.undefined), ("j", JSVal.str "y")] ≠ Props.keys [("j", JSVal.str "y")] ∧
    noPanelPageReference panelComponent =
      some { type := panelPageReference.type, attributes := panelPageReference.attributes,
             state := some [("c__showPanel", JSVal.undefined)] } ∧
    Props.hasOwn [("c__showPanel", JSVal.undefined)] "c__showPanel" = true ∧
    Props.keys [("c__showPanel", JSVal.undefined)] = ["c__showPanel"] := by
  refine ⟨by rfl, by decide, by decide, by rfl, by decide, by decide⟩

/-- What the method returns for an override `k: undefined`, for every current page reference
`base` and key `k`: a page reference with the `type` and `attributes` of `base` whose `state` has
the own property `k` with the value `undefined` (reading it gives `undefined`, as reading an
absent key does) and holds for every other key what `base.state` holds. -/
theorem getUpdatedPageReference_undefined (this : Component) (base : PageReference) (k : String)
    (hcur : this.currentPageReference = some base) (hstate : base.stateProps.WF) :
    ∃ st : JSObject,
      getUpdatedPageReference this [(k, JSVal.undefined)] =
        some { type := base.type, attributes := base.attributes, state := some st } ∧
      st.WF ∧
      Props.hasOwn st k = true ∧
      st.get k = JSVal.undefined ∧
      (∀ j, j ≠ k → Props.lookup st j = Props.lookup base.stateProps j) ∧
      (∀ j, j ≠ k → st.get j = base.stateProps.get j) := by
  have hch : Props.WF [(k, JSVal.undefined)] := by simp [Props.WF, Props.keys]
  have hk : Props.lookup
      (Props.assignFrom (Props.assignFrom [] base.stateProps) [(k, JSVal.undefined)]) k =
      some JSVal.undefined := by
    rw [lookup_derived_state _ _ hstate hch]; simp [Props.lookup]
  have hj : ∀ j, j ≠ k → Props.lookup
      (Props.assignFrom (Props.assignFrom [] base.stateProps) [(k, JSVal.undefined)]) j =
      Props.lookup base.stateProps j := by
    intro j hne
    have hne1 : ¬ k = j := fun e => hne e.symm
    rw [lookup_derived_state _ _ hstate hch]; simp [Props.lookup, hne1]
  refine ⟨_, getUpdatedPageReference_eq this base hcur _, ?_, ?_, ?_, hj, ?_⟩
  · exact Props.WF_assignFrom _ _ (Props.WF_assignFrom _ _ (by simp [Props.WF, Props.keys]))
  · simp [Props.hasOwn, hk]
  · simp [JSObject.get, hk]
  · intro j hne
    simp [JSObject.get, hj j hne]

/-- The override `k: undefined` at a concrete input: state `k: "x", j: "y"` and the key `k`. -/
theorem getUpdatedPageReference_undefined_witness :
    ∃ st : JSObject,
      getUpdatedPageReference twoKeyComponent [("k", JSVal.undefined)] =
        some { type := twoKeyPageReference.type, attributes := twoKeyPageReference.attributes,
               state := some st } ∧
      st.WF ∧
      Props.hasOwn st "k" = true ∧
      st.get "k" = JSVal.undefined ∧
      (∀ j, j ≠ "k" → Props.lookup st j = Props.lookup twoKeyPageReference.stateProps j) ∧
      (∀ j, j ≠ "k" → st.get j = twoKeyPageReference.stateProps.get j) :=
  getUpdatedPageReference_undefined twoKeyComponent twoKeyPageReference "k" rfl (by decide)

/-- C3: deriving with `k: v` from the page reference that deriving with `k: v` gave returns that
same page reference again (same `type`, `attributes` and `state`). -/
theorem getUpdatedPageReference_idempotent (this : Component) (ref : PageReference)
    (k v : String) :
    ∃ r1 : PageReference,
      getUpdatedPageReference { this with currentPageReference := some ref }
        [(k, JSVal.str v)] = some r1 ∧
      getUpdatedPageReference { this with currentPageReference := some r1 }
        [(k, JSVal.str v)] = some r1 := by
  have hch : Props.WF [(k, JSVal.str v)] := by simp [Props.WF, Props.keys]
  have hwf : Props.WF (Props.assignFrom (Props.assignFrom [] ref.stateProps) [(k, JSVal.str v)]) :=
    Props.WF_assignFrom _ _ (Props.WF_assignFrom _ _ (by simp [Props.WF, Props.keys]))
  have hk : Props.lookup
      (Props.assignFrom (Props.assignFrom [] ref.stateProps) [(k, JSVal.str v)]) k =
      some (JSVal.str v) := by
    rw [Props.lookup_assignFrom _ _ hch]; simp [Props.lookup]
  refine ⟨_, getUpdatedPageReference_eq _ ref rfl _, ?_⟩
  rw [getUpdatedPageReference_eq _ _ rfl]
  show some { type := ref.type, attributes := ref.attributes,
              state := some (Props.assignFrom (Props.assignFrom []
                (Props.assignFrom (Props.assignFrom [] ref.stateProps) [(k, JSVal.str v)]))
                [(k, JSVal.str v)]) : PageReference } = _
  rw [Props.assignFrom_nil _ hwf]
  have hset : Props.assignFrom
      (Props.assignFrom (Props.assignFrom [] ref.stateProps) [(k, JSVal.str v)])
      [(k, JSVal.str v)] =
      Props.assignFrom (Props.assignFrom [] ref.stateProps) [(k, JSVal.str v)] := by
    show Props.set _ k (JSVal.str v) = _
    exact Props.set_of_lookup _ _ _ hk
  rw [hset]

/-- C5: with a current page reference whose state is `st`, the getter `showPanel` is `true` when
`st` maps `c__showPanel` to the string `"true"` and `false` otherwise: when `st` is empty, when
the key is absent, when it holds `undefined` and when it holds any other string. -/
theorem showPanel_true_iff (this : Component) (ref : PageReference) (st : JSObject)
    (hcur : this.currentPageReference = some ref) (hst : ref.state = some st) :
    (Props.lookup st "c__showPanel" = some (JSVal.str "true") →
      showPanel this = some (ShowPanelValue.bool true)) ∧
    (Props.lookup st "c__showPanel" ≠ some (JSVal.str "true") →
      showPanel this = some (ShowPanelValue.bool false)) ∧
    (st = [] → showPanel this = some (ShowPanelValue.bool false)) ∧
    (Props.hasOwn st "c__showPanel" = false →
      showPanel this = some (ShowPanelValue.bool false)) ∧
    (∀ s, s ≠ "true" → Props.lookup st "c__showPanel" = some (JSVal.str s) →
      showPanel this = some (ShowPanelValue.bool false)) := by
  have hval : showPanel this =
      some (ShowPanelValue.bool ((st.get "c__showPanel").looseEqStr "true")) := by
    simp [showPanel, hcur, hst]
  have hfalse : Props.lookup st "c__showPanel" ≠ some (JSVal.str "true") →
      showPanel this = some (ShowPanelValue.bool false) := by
    intro hne
    rw [hval]
    cases hl : Props.lookup st "c__showPanel" with
    | none => simp [JSObject.get, hl, JSVal.looseEqStr]
    | some v =>
      cases v with
      | undefined => simp [JSObject.get, hl, JSVal.looseEqStr]
      | str s =>
        have hs : s ≠ "true" := by
          intro e; apply hne; rw [hl, e]
        simp [JSObject.get, hl, JSVal.looseEqStr, hs]
  refine ⟨?_, hfalse, ?_, ?_, ?_⟩
  · intro h
    rw [hval]; simp [JSObject.get, h, JSVal.looseEqStr]
  · intro h; apply hfalse; simp [h, Props.lookup]
  · intro h; apply hfalse
    have : Props.lookup st "c__showPanel" = none := by simpa [Props.hasOwn] using h
    simp [this]
  · intro s hs h; apply hfalse
    rw [h]; intro e; apply hs; injection e with e1; injection e1

/-- C5, at a concrete input: the state `c__showPanel: "true"`. -/
theorem showPanel_true_iff_witness :
    (Props.lookup [("c__showPanel", JSVal.str "true")] "c__showPanel" = some (JSVal.str "true") →
      showPanel panelComponent = some (ShowPanelValue.bool true)) ∧
    (Props.lookup [("c__showPanel", JSVal.str "true")] "c__showPanel" ≠ some (JSVal.str "true") →
      showPanel panelComponent = some (ShowPanelValue.bool false)) ∧
    (([("c__showPanel", JSVal.str "true")] : JSObject) = [] →
      showPanel panelComponent = some (ShowPanelValue.bool false)) ∧
    (Props.hasOwn [("c__showPanel", JSVal.str "true")] "c__showPanel" = false →
      showPanel panelComponent = some (ShowPanelValue.bool false)) ∧
    (∀ s, s ≠ "true" →
      Props.lookup [("c__showPanel", JSVal.str "true")] "c__showPanel" = some (JSVal.str s) →
      showPanel panelComponent = some (ShowPanelValue.bool false)) :=
  showPanel_true_iff panelComponent panelPageReference [("c__showPanel", JSVal.str "true")]
    rfl rfl

/-! ## Record creation -/

/-- C7: `createAccount` calls the adapter with the customer object and the fields
`Full_Name__c: name`; when the promise fulfils with a record, the `.then` callback stores the
identifier of the record in `accountId`, changes nothing else, and dispatches exactly one toast,
of variant `success`. -/
theorem createAccount_success (this later : Component) (customer__c : RecordRepresentation) :
    createAccount this =
      (this, [Effect.createRecord
        { apiName := "Customer__c", fields := [("Full_Name__c", this.name)] }]) ∧
    createAccount_then later customer__c =
      ({ later with accountId := some customer__c.id },
       [Effect.dispatchEvent
         { title := "Success", message := "Account created", variant := "success" }]) ∧
    (createAccount_then later customer__c).1.accountId = some customer__c.id ∧
    (toasts (createAccount_then later customer__c).2).length = 1 ∧
    (∀ t ∈ toasts (createAccount_then later customer__c).2, t.variant = "success") := by
  refine ⟨rfl, rfl, rfl, rfl, ?_⟩
  intro t ht
  simp [createAccount_then, toasts] at ht
  rw [ht]

/-- C8, as stated, fails: a component that holds the identifier of a created record still holds
it after a later `createAccount` whose promise rejects. -/
theorem createAccount_rejected_keeps_accountId :
    createdComponent.accountId = some "a00000000000001" ∧
    (createAccount_catch (createAccount createdComponent).1 sampleError).1.accountId =
      some "a00000000000001" ∧
    (createAccount_catch (createAccount createdComponent).1 sampleError).1.accountId ≠ none := by
  refine ⟨rfl, rfl, by decide⟩

/-- C8, amended: when the promise of `createAccount` rejects with an error whose message is `m`,
the `.catch` callback dispatches exactly one toast, of variant `error` and with message `m`, and
no other, and leaves every field of the component as it is: `name` is unchanged and `accountId`
is unchanged, so it is unset afterwards when it was unset before. -/
theorem createAccount_failure (this later : Component) (error : FetchError) :
    (createAccount this).1 = this ∧
    createAccount_catch later error =
      (later, [Effect.dispatchEvent
        { title := "Error creating record", message := error.body.message, variant := "error" }]) ∧
    toasts (createAccount_catch later error).2 =
      [{ title := "Error creating record", message := error.body.message, variant := "error" }] ∧
    (createAccount_catch later error).1.name = later.name ∧
    (createAccount_catch later error).1.accountId = later.accountId := by
  refine ⟨rfl, rfl, rfl, rfl, rfl⟩

/-- C9: `handleNameChange` with the input value `t` leaves `accountId` unset and `name` equal to
`t`, whatever the component held before; a `createAccount` that follows submits the name `t` and
starts with `accountId` unset. -/
theorem handleNameChange_clears_accountId (this : Component) (t : String) :
    (handleNameChange this t).accountId = none ∧
    (handleNameChange this t).name = t ∧
    (createAccount (handleNameChange this t)).1.accountId = none ∧
    (createAccount (handleNameChange this t)).2 =
      [Effect.createRecord { apiName := "Customer__c", fields := [("Full_Name__c", t)] }] := by
  refine ⟨rfl, rfl, rfl, rfl⟩

/-! ## Readiness -/

theorem urlRequests_append (a b : List Effect) :
    urlRequests (a ++ b) = urlRequests a ++ urlRequests b := by
  induction a with
  | nil => rfl
  | cons e rest ih => cases e <;> simp [urlRequests, ih]

theorem asWritten_fresh : AsWritten Sys.fresh := by
  simp [AsWritten, Sys.fresh, Component.fresh, urlRequests]

theorem setCurrentPageReference_before_connected (this : Component) (ref : PageReference)
    (h : this.connected = false) :
    setCurrentPageReference this ref =
      ({ this with currentPageReference := some ref, generateUrlOnConnected := true }, []) := by
  simp [setCurrentPageReference, h]

theorem asWritten_step (s : Sys) (e : Event) (h : AsWritten s) :
    AsWritten (step connectedCallback s e) := by
  obtain ⟨hc, hs, hn, hlog, hpend⟩ := h
  cases e with
  | pageReference ref =>
    simp only [step, Sys.after, setCurrentPageReference_before_connected _ ref hc]
    refine ⟨hc, hs, hn, ?_, ?_⟩
    · simpa [urlRequests_append, urlRequests] using hlog
    · simpa [urlRequests] using hpend
  | attached =>
    simp only [step, Sys.after, connectedCallback]
    refine ⟨hc, hs, hn, ?_, ?_⟩
    · intro r hr
      simp only [urlRequests_append, urlRequests, List.mem_append, List.mem_singleton] at hr
      rcases hr with hr | hr
      · exact hlog r hr
      · exact hr
    · intro slot hslot
      simp only [urlRequests, List.map_cons, List.map_nil, List.mem_append,
        List.mem_singleton] at hslot
      rcases hslot with h1 | h1
      · exact hpend slot h1
      · exact h1
  | urlResolved i url =>
    simp only [step]
    cases hget : s.pending[i]? with
    | none => exact ⟨hc, hs, hn, hlog, hpend⟩
    | some slot =>
      have hslot : slot = UrlSlot.url := hpend slot (List.getElem?_mem hget)
      subst hslot
      refine ⟨hc, hs, hn, hlog, ?_⟩
      intro slot hmem
      exact hpend slot (List.mem_of_mem_eraseIdx hmem)

theorem asWritten_run (events : List Event) (s : Sys) (h : AsWritten s) :
    AsWritten (run connectedCallback s events) := by
  induction events generalizing s with
  | nil => exact h
  | cons e rest ih => exact ih _ (asWritten_step s e h)

theorem generateUrlsRuns_of_asWritten (s : Sys) (h : AsWritten s) : generateUrlsRuns s = 0 := by
  obtain ⟨_, _, _, hlog, _⟩ := h
  unfold generateUrlsRuns
  rw [List.length_eq_zero, List.filter_eq_nil_iff]
  intro r hr
  rw [hlog r hr]
  decide

/-- C10: in the class as written (its `connectedCallback` is the second definition), after every
sequence of page-reference notifications, view-attached notifications and URL fulfilments that
starts from a freshly constructed component, `connected` is not set, `generateUrls` has not run,
`showPanelUrl` and `noPanelUrl` are unset, and every URL resolution requested is the one for the
account home page, stored in `url`. -/
theorem as_written_never_generates_panel_urls (events : List Event) :
    (run connectedCallback Sys.fresh events).comp.connected = false ∧
    generateUrlsRuns (run connectedCallback Sys.fresh events) = 0 ∧
    (run connectedCallback Sys.fresh events).comp.showPanelUrl = none ∧
    (run connectedCallback Sys.fresh events).comp.noPanelUrl = none ∧
    (∀ r ∈ urlRequests (run connectedCallback Sys.fresh events).log,
      r = (accountHomePageRefLiteral, UrlSlot.url)) := by
  have h := asWritten_run events Sys.fresh asWritten_fresh
  exact ⟨h.1, generateUrlsRuns_of_asWritten _ h, h.2.1, h.2.2.1, h.2.2.2.1⟩

/-- C6, on the class as written: for every page reference, in either order of the two
notifications `generateUrls` runs zero times, not once; the only request made is the one for the
account home page. -/
theorem readiness_as_written_runs_nothing (ref : PageReference) :
    generateUrlsRuns (run connectedCallback Sys.fresh [Event.attached, Event.pageReference ref])
      = 0 ∧
    generateUrlsRuns (run connectedCallback Sys.fresh [Event.pageReference ref, Event.attached])
      = 0 ∧
    (run connectedCallback Sys.fresh [Event.attached, Event.pageReference ref]).log =
      [Effect.generateUrl accountHomePageRefLiteral UrlSlot.url] ∧
    (run connectedCallback Sys.fresh [Event.pageReference ref, Event.attached]).log =
      [Effect.generateUrl accountHomePageRefLiteral UrlSlot.url] := by
  refine ⟨rfl, rfl, rfl, rfl⟩

/-- The first definition of `connectedCallback`, had it been the method of the class, gives the
readiness the comments describe: in either order of the two notifications `generateUrls` runs
exactly once, and the two requests are those for the show-panel and the no-panel derivation of
the page reference. -/
theorem readiness_of_shadowed_definition (ref : PageReference) :
    ∃ showRef noRef : PageReference,
      showPanelPageReference { Component.fresh with currentPageReference := some ref } =
        some showRef ∧
      noPanelPageReference { Component.fresh with currentPageReference := some ref } =
        some noRef ∧
      (run connectedCallback_shadowed Sys.fresh [Event.attached, Event.pageReference ref]).log =
        [Effect.generateUrl showRef UrlSlot.showPanelUrl,
         Effect.generateUrl noRef UrlSlot.noPanelUrl] ∧
      (run connectedCallback_shadowed Sys.fresh [Event.pageReference ref, Event.attached]).log =
        [Effect.generateUrl showRef UrlSlot.showPanelUrl,
         Effect.generateUrl noRef UrlSlot.noPanelUrl] ∧
      generateUrlsRuns
        (run connectedCallback_shadowed Sys.fresh [Event.attached, Event.pageReference ref]) = 1 ∧
      generateUrlsRuns
        (run connectedCallback_shadowed Sys.fresh [Event.pageReference ref, Event.attached]) = 1 := by
  refine ⟨_, _, rfl, rfl, rfl, rfl, rfl, rfl⟩

/-! ## The derivation writes only to fresh objects -/

theorem Props.set_map {α β : Type} (g : α → β) (o : Props α) (k : String) (v : α) :
    (Props.set o k v).map (fun kv => (kv.1, g kv.2)) =
      Props.set (o.map (fun kv => (kv.1, g kv.2))) k (g v) := by
  induction o with
  | nil => simp [Props.set]
  | cons p rest ih =>
    obtain ⟨k', v'⟩ := p
    by_cases hk : k' = k
    · simp [Props.set, hk]
    · simp [Props.set, hk, ih]

theorem Props.assignFrom_map {α β : Type} (g : α → β) (t s : Props α) :
    (Props.assignFrom t s).map (fun kv => (kv.1, g kv.2)) =
      Props.assignFrom (t.map (fun kv => (kv.1, g kv.2))) (s.map (fun kv => (kv.1, g kv.2))) := by
  unfold Props.assignFrom
  induction s generalizing t with
  | nil => simp
  | cons p rest ih =>
    simp only [List.foldl_cons, List.map_cons]
    rw [ih, Props.set_map]

theorem HVal.toJSVal_ofJSVal (v : JSVal) : HVal.toJSVal (HVal.ofJSVal v) = some v := by
  cases v <;> rfl

theorem HVal.ofJSVal_of_toJSVal (w : HVal) (v : JSVal) (h : HVal.toJSVal w = some v) :
    w = HVal.ofJSVal v := by
  cases w <;> simp [HVal.toJSVal] at h <;> subst h <;> rfl

theorem HVal.readProps_ofJSObject (o : JSObject) : HVal.readProps (HVal.ofJSObject o) = some o := by
  induction o with
  | nil => rfl
  | cons p rest ih =>
    obtain ⟨k, v⟩ := p
    have ih' : HVal.readProps (List.map (fun kv => (kv.1, HVal.ofJSVal kv.2)) rest) = some rest := ih
    simp [HVal.ofJSObject, HVal.readProps, HVal.toJSVal_ofJSVal, ih']

theorem HVal.eq_ofJSObject (o : Props HVal) (j : JSObject) (h : HVal.readProps o = some j) :
    o = HVal.ofJSObject j := by
  induction o generalizing j with
  | nil => simp [HVal.readProps] at h; subst h; rfl
  | cons p rest ih =>
    obtain ⟨k, w⟩ := p
    simp only [HVal.readProps] at h
    cases hw : HVal.toJSVal w with
    | none => simp [hw] at h
    | some v =>
      cases hr : HVal.readProps rest with
      | none => simp [hw, hr] at h
      | some rest1 =>
        simp [hw, hr] at h
        subst h
        simp [HVal.ofJSObject, HVal.ofJSVal_of_toJSVal w v hw]
        exact ih rest1 hr

namespace Heap

theorem getElem?_append_of_lt (h ext : Heap) (a : Nat) (ha : a < h.length) :
    (h ++ ext)[a]? = h[a]? :=
  List.getElem?_append_left ha

theorem lt_of_getElem? (h : Heap) (a : Nat) (o : Props HVal) (hget : h[a]? = some o) :
    a < h.length := by
  by_contra hge
  have : h[a]? = none := by simp; omega
  rw [this] at hget; cases hget

theorem write_append_right (h ext : Heap) (i : Nat) (f : Props HVal → Props HVal) :
    write (h ++ ext) (h.length + i) f = h ++ write ext i f := by
  unfold write
  have : (h ++ ext)[h.length + i]? = ext[i]? := by
    simp [List.getElem?_append_right]
  rw [this]
  cases ext[i]? with
  | none => rfl
  | some o => simp [List.set_append_right]

theorem getProp_append (h ext : Heap) (a : Nat) (ha : a < h.length) (k : String) :
    getProp (h ++ ext) a k = getProp h a k := by
  unfold getProp
  rw [getElem?_append_of_lt h ext a ha]

theorem ownProps_append (h ext : Heap) (v : HVal) (hv : ∀ a, v = HVal.ref a → a < h.length) :
    ownProps (h ++ ext) v = ownProps h v := by
  cases v with
  | undefined => rfl
  | str s => rfl
  | ref a =>
    show (h ++ ext)[a]?.getD [] = h[a]?.getD []
    rw [getElem?_append_of_lt h ext a (hv a rfl)]

theorem objectAssign_two (h : Heap) (t : Nat) (s1 s2 : HVal) :
    objectAssign h t [s1, s2] =
      (h.write t (fun o => Props.assignFrom o (h.ownProps s1))).write t
        (fun o => Props.assignFrom o
          ((h.write t (fun o => Props.assignFrom o (h.ownProps s1))).ownProps s2)) := rfl

theorem write_new_0 (h : Heap) (x y z : Props HVal) (f : Props HVal → Props HVal) :
    write (h ++ [x, y, z]) h.length f = h ++ [f x, y, z] := by
  have := write_append_right h [x, y, z] 0 f
  simpa [write] using this

theorem write_new_1 (h : Heap) (x y z : Props HVal) (f : Props HVal → Props HVal) :
    write (h ++ [x, y, z]) (h.length + 1) f = h ++ [x, f y, z] := by
  have := write_append_right h [x, y, z] 1 f
  simpa [write] using this

theorem write_new_2 (h : Heap) (x y z : Props HVal) (f : Props HVal → Props HVal) :
    write (h ++ [x, y, z]) (h.length + 2) f = h ++ [x, y, f z] := by
  have := write_append_right h [x, y, z] 2 f
  simpa [write] using this

theorem ownProps_new_1 (h : Heap) (x y z : Props HVal) :
    ownProps (h ++ [x, y, z]) (HVal.ref (h.length + 1)) = y := by
  show (h ++ [x, y, z])[h.length + 1]?.getD [] = y
  rw [List.getElem?_append_right (by omega)]
  simp

end Heap

/-- The heap after a call, for inputs that are addresses of the heap: three objects are added,
the returned object, the literal that carries the new `state`, and the new `state`. -/
theorem getUpdatedPageReferenceH_eq (h : Heap) (b sc : Nat) (hb : b < h.length)
    (hsc : sc < h.length) (hst : ∀ a, h.getProp b "state" = HVal.ref a → a < h.length) :
    getUpdatedPageReferenceH h (some b) sc =
      some (h ++ [Props.assignFrom (Props.assignFrom [] (h.ownProps (HVal.ref b)))
                    [("state", HVal.ref (h.length + 2))],
                  [("state", HVal.ref (h.length + 2))],
                  Props.assignFrom (Props.assignFrom [] (h.ownProps (h.getProp b "state")))
                    (h.ownProps (HVal.ref sc))],
            h.length) := by
  have e3 : h ++ [[]] ++ [[]] ++ [[]] = h ++ [([] : Props HVal), [], []] := by simp
  have l1 : (h ++ [([] : Props HVal)]).length = h.length + 1 := by simp
  have l2 : (h ++ [([] : Props HVal)] ++ [[]]).length = h.length + 2 := by simp
  simp only [getUpdatedPageReferenceH, Heap.alloc, l1, l2, e3]
  rw [Heap.getProp_append h _ b hb]
  simp only [Heap.objectAssign_two]
  rw [Heap.write_new_2, Heap.ownProps_append h _ _ hst]
  rw [Heap.write_new_2, Heap.ownProps_append h _ (HVal.ref sc) (by intro a e; cases e; exact hsc)]
  rw [Heap.write_new_1]
  rw [Heap.write_new_0, Heap.ownProps_append h _ (HVal.ref b) (by intro a e; cases e; exact hb)]
  rw [Heap.write_new_0, Heap.ownProps_new_1]
  rfl

namespace Heap

theorem readObject_append (h ext : Heap) (a : Nat) (o : JSObject)
    (hr : h.readObject a = some o) : (h ++ ext).readObject a = some o := by
  unfold readObject at hr ⊢
  cases hget : h[a]? with
  | none => simp [hget] at hr
  | some p =>
    rw [getElem?_append_of_lt h ext a (lt_of_getElem? h a p hget), hget]
    simpa [hget] using hr

theorem readObject_eq (h : Heap) (a : Nat) (o : JSObject) (hr : h.readObject a = some o) :
    a < h.length ∧ h[a]? = some (HVal.ofJSObject o) := by
  unfold readObject at hr
  cases hget : h[a]? with
  | none => simp [hget] at hr
  | some p =>
    simp only [hget] at hr
    exact ⟨lt_of_getElem? h a p hget, by rw [HVal.eq_ofJSObject p o hr]⟩

/-- What `readState` succeeding says about the value of the `state` property. -/
theorem readState_some (h : Heap) (o : Props HVal) (st : Option JSObject)
    (hr : h.readState o = some st) :
    (∀ a, (Props.lookup o "state").getD HVal.undefined = HVal.ref a → a < h.length) ∧
    h.ownProps ((Props.lookup o "state").getD HVal.undefined) = HVal.ofJSObject (st.getD []) := by
  unfold readState at hr
  cases hl : Props.lookup o "state" with
  | none =>
    simp only [hl] at hr
    injection hr with hr; subst hr
    exact ⟨(by intro a e; cases e), rfl⟩
  | some w =>
    cases w with
    | undefined =>
      simp only [hl] at hr
      injection hr with hr; subst hr
      exact ⟨(by intro a e; cases e), rfl⟩
    | str s => simp [hl] at hr
    | ref a =>
      simp only [hl] at hr
      cases hro : h.readObject a with
      | none => simp [hro] at hr
      | some s =>
        simp only [hro] at hr
        injection hr with hr; subst hr
        obtain ⟨hlt, hget⟩ := readObject_eq h a s hro
        refine ⟨(by intro a1 e; cases e; exact hlt), ?_⟩
        show h[a]?.getD [] = _
        rw [hget]; rfl

theorem readPageReference_some (h : Heap) (b : Nat) (base : PageReference)
    (hr : h.readPageReference b = some base) :
    ∃ o x, h[b]? = some o ∧ o.WF ∧
      Props.lookup o "type" = some (HVal.str base.type) ∧
      Props.lookup o "attributes" = some (HVal.ref x) ∧
      h.readObject x = some base.attributes ∧
      h.readState o = some base.state := by
  unfold readPageReference at hr
  cases hget : h[b]? with
  | none => simp [hget] at hr
  | some o =>
    simp only [hget] at hr
    by_cases hwf : o.WF
    · simp only [hwf, if_true] at hr
      split at hr
      · rename_i t x st ht hx hst
        cases hro : h.readObject x with
        | none => simp [hro] at hr
        | some attrs =>
          simp only [hro] at hr
          injection hr with hr
          subst hr
          exact ⟨o, x, rfl, hwf, ht, hx, hro, hst⟩
      · cases hr
    · simp [hwf] at hr

theorem readPageReference_intro (h : Heap) (b : Nat) (o : Props HVal) (x : Nat) (t : String)
    (attrs : JSObject) (st : Option JSObject)
    (hget : h[b]? = some o) (hwf : o.WF)
    (ht : Props.lookup o "type" = some (HVal.str t))
    (hx : Props.lookup o "attributes" = some (HVal.ref x))
    (ha : h.readObject x = some attrs)
    (hs : h.readState o = some st) :
    h.readPageReference b = some { type := t, attributes := attrs, state := st } := by
  unfold readPageReference
  simp [hget, hwf, ht, hx, ha, hs]

theorem readPageReference_append (h ext : Heap) (b : Nat) (base : PageReference)
    (hr : h.readPageReference b = some base) : (h ++ ext).readPageReference b = some base := by
  obtain ⟨o, x, hget, hwf, ht, hx, ha, hs⟩ := readPageReference_some h b base hr
  have hb : b < h.length := lt_of_getElem? h b o hget
  have hs' : (h ++ ext).readState o = some base.state := by
    unfold readState at hs ⊢
    cases hl : Props.lookup o "state" with
    | none => simpa [hl] using hs
    | some w =>
      cases w with
      | undefined => simpa [hl] using hs
      | str s => simp [hl] at hs
      | ref a =>
        simp only [hl] at hs ⊢
        cases hro : h.readObject a with
        | none => simp [hro] at hs
        | some s =>
          rw [readObject_append h ext a s hro]
          simpa [hro] using hs
  exact readPageReference_intro (h ++ ext) b o x base.type base.attributes base.state
    (by rw [getElem?_append_of_lt h ext b hb, hget]) hwf ht hx (readObject_append h ext x _ ha) hs'

end Heap

theorem HVal.assignFrom_ofJSObject (t s : JSObject) :
    Props.assignFrom (HVal.ofJSObject t) (HVal.ofJSObject s) =
      HVal.ofJSObject (Props.assignFrom t s) := by
  unfold HVal.ofJSObject
  rw [Props.assignFrom_map HVal.ofJSVal]

/-- The reference-level method computes what the method on values computes: the returned
address is fresh, the heap before the call is a prefix of the heap after it, and the object at
the returned address reads as the page reference `getUpdatedPageReference` returns. -/
theorem getUpdatedPageReferenceH_refines (h : Heap) (b sc : Nat) (base : PageReference)
    (changes : JSObject) (this : Component)
    (hcur : this.currentPageReference = some base)
    (hb : h.readPageReference b = some base) (hsc : h.readObject sc = some changes) :
    ∃ h1 : Heap,
      getUpdatedPageReferenceH h (some b) sc = some (h1, h.length) ∧
      h <+: h1 ∧
      h1.readPageReference h.length = getUpdatedPageReference this changes := by
  obtain ⟨o, x, hget, hwf, ht, hx, ha, hs⟩ := Heap.readPageReference_some h b base hb
  have hblt : b < h.length := Heap.lt_of_getElem? h b o hget
  obtain ⟨hsclt, hscget⟩ := Heap.readObject_eq h sc changes hsc
  have hprop : h.getProp b "state" = (Props.lookup o "state").getD HVal.undefined := by
    unfold Heap.getProp; rw [hget]; rfl
  obtain ⟨hvalid, hstate⟩ := Heap.readState_some h o base.state hs
  rw [← hprop] at hvalid hstate
  have hownb : h.ownProps (HVal.ref b) = o := by
    show h[b]?.getD [] = o
    rw [hget]; rfl
  have hownsc : h.ownProps (HVal.ref sc) = HVal.ofJSObject changes := by
    show h[sc]?.getD [] = _
    rw [hscget]; rfl
  have hinner : Props.assignFrom (Props.assignFrom [] (h.ownProps (h.getProp b "state")))
      (h.ownProps (HVal.ref sc)) =
      HVal.ofJSObject (Props.assignFrom (Props.assignFrom [] base.stateProps) changes) := by
    rw [hstate, hownsc]
    have hnil : ([] : Props HVal) = HVal.ofJSObject [] := rfl
    rw [hnil, HVal.assignFrom_ofJSObject, HVal.assignFrom_ofJSObject]
    rfl
  have houter : Props.assignFrom (Props.assignFrom [] (h.ownProps (HVal.ref b)))
      [("state", HVal.ref (h.length + 2))] = Props.set o "state" (HVal.ref (h.length + 2)) := by
    rw [hownb, Props.assignFrom_nil o hwf]; rfl
  refine ⟨_, getUpdatedPageReferenceH_eq h b sc hblt hsclt hvalid, List.prefix_append _ _, ?_⟩
  rw [getUpdatedPageReference_eq this base hcur, hinner, houter]
  apply Heap.readPageReference_intro _ _ (Props.set o "state" (HVal.ref (h.length + 2))) x
  · rw [List.getElem?_append_right (Nat.le_refl _)]
    simp
  · exact Props.WF_set o _ _ hwf
  · rw [Props.lookup_set_ne o (by decide), ht]
  · rw [Props.lookup_set_ne o (by decide), hx]
  · exact Heap.readObject_append h _ x _ ha
  · unfold Heap.readState
    rw [Props.lookup_set_self]
    have : Heap.readObject (h ++ [Props.set o "state" (HVal.ref (h.length + 2)),
        [("state", HVal.ref (h.length + 2))],
        HVal.ofJSObject (Props.assignFrom (Props.assignFrom [] base.stateProps) changes)])
        (h.length + 2) =
        some (Props.assignFrom (Props.assignFrom [] base.stateProps) changes) := by
      unfold Heap.readObject
      rw [List.getElem?_append_right (by omega)]
      simp [HVal.readProps_ofJSObject]
    simp only [this]

theorem Heap.getElem?_of_prefix (h h1 : Heap) (hp : h <+: h1) (a : Nat) (o : Props HVal)
    (hget : h[a]? = some o) : h1[a]? = some o := by
  obtain ⟨ext, rfl⟩ := hp
  rw [Heap.getElem?_append_of_lt h ext a (Heap.lt_of_getElem? h a o hget), hget]

/-- C4: a call of `getUpdatedPageReference` on a heap that holds the current page reference
`base` at address `b` and the override object at address `sc` returns a fresh address and leaves
every object that existed before the call as it was (the heap before is a prefix of the heap
after: the component instance, the current page reference, its `attributes` and `state`, and the
override object are among these objects), so `b` and `sc` still read as `base` and the overrides;
the returned object reads as the value of `getUpdatedPageReference`; a second call with the same
inputs again changes no existing object and returns an object that reads as the same page
reference; and the same holds of the two getters, whose only addition is the literal they pass. -/
theorem getUpdatedPageReference_frame (h : Heap) (b sc : Nat) (base : PageReference)
    (changes : JSObject) (this : Component)
    (hcur : this.currentPageReference = some base)
    (hb : h.readPageReference b = some base) (hsc : h.readObject sc = some changes) :
    ∃ h1 h2 h3 h4 : Heap,
      getUpdatedPageReferenceH h (some b) sc = some (h1, h.length) ∧
      h <+: h1 ∧
      (∀ (a : Nat) (o : Props HVal), h[a]? = some o → h1[a]? = some o) ∧
      h1.readPageReference b = some base ∧
      h1.readObject sc = some changes ∧
      h1.readPageReference h.length = getUpdatedPageReference this changes ∧
      getUpdatedPageReferenceH h1 (some b) sc = some (h2, h1.length) ∧
      h1 <+: h2 ∧
      h2.readPageReference h1.length = h1.readPageReference h.length ∧
      showPanelPageReferenceH h (some b) = some (h3, h.length + 1) ∧
      h <+: h3 ∧
      h3.readPageReference (h.length + 1) = showPanelPageReference this ∧
      noPanelPageReferenceH h (some b) = some (h4, h.length + 1) ∧
      h <+: h4 ∧
      h4.readPageReference (h.length + 1) = noPanelPageReference this := by
  obtain ⟨h1, hcall1, hp1, hread1⟩ :=
    getUpdatedPageReferenceH_refines h b sc base changes this hcur hb hsc
  have hb1 : h1.readPageReference b = some base := by
    obtain ⟨ext, rfl⟩ := hp1
    exact Heap.readPageReference_append h ext b base hb
  have hsc1 : h1.readObject sc = some changes := by
    obtain ⟨ext, rfl⟩ := hp1
    exact Heap.readObject_append h ext sc changes hsc
  obtain ⟨h2, hcall2, hp2, hread2⟩ :=
    getUpdatedPageReferenceH_refines h1 b sc base changes this hcur hb1 hsc1
  have hlit : ∀ v : JSVal,
      ∃ h5 : Heap,
        getUpdatedPageReferenceH (h ++ [[("c__showPanel", HVal.ofJSVal v)]]) (some b) h.length =
          some (h5, h.length + 1) ∧
        h <+: h5 ∧
        h5.readPageReference (h.length + 1) =
          getUpdatedPageReference this [("c__showPanel", v)] := by
    intro v
    have hbx := Heap.readPageReference_append h [[("c__showPanel", HVal.ofJSVal v)]] b base hb
    have hscx : Heap.readObject (h ++ [[("c__showPanel", HVal.ofJSVal v)]]) h.length =
        some [("c__showPanel", v)] := by
      unfold Heap.readObject
      rw [List.getElem?_append_right (Nat.le_refl _)]
      simp [HVal.readProps, HVal.toJSVal_ofJSVal]
    obtain ⟨h5, hcall, hp, hread⟩ :=
      getUpdatedPageReferenceH_refines _ b h.length base [("c__showPanel", v)] this hcur hbx hscx
    refine ⟨h5, ?_, ?_, ?_⟩
    · simpa using hcall
    · exact List.IsPrefix.trans (List.prefix_append _ _) hp
    · simpa using hread
  obtain ⟨h3, hcall3, hp3, hread3⟩ := hlit (JSVal.str "true")
  obtain ⟨h4, hcall4, hp4, hread4⟩ := hlit JSVal.undefined
  exact ⟨h1, h2, h3, h4, hcall1, hp1, Heap.getElem?_of_prefix h h1 hp1, hb1, hsc1, hread1,
    hcall2, hp2, by rw [hread2, hread1], hcall3, hp3, hread3, hcall4, hp4, hread4⟩

/-- C4, at a concrete input: the heap `sampleHeap`. -/
theorem getUpdatedPageReference_frame_witness :
    ∃ h1 h2 h3 h4 : Heap,
      getUpdatedPageReferenceH sampleHeap (some 1) 4 = some (h1, sampleHeap.length) ∧
      sampleHeap <+: h1 ∧
      (∀ (a : Nat) (o : Props HVal), sampleHeap[a]? = some o → h1[a]? = some o) ∧
      h1.readPageReference 1 = some samplePageReference ∧
      h1.readObject 4 = some (stringChanges [("a", "2"), ("b", "3")]) ∧
      h1.readPageReference sampleHeap.length =
        getUpdatedPageReference sampleComponent (stringChanges [("a", "2"), ("b", "3")]) ∧
      getUpdatedPageReferenceH h1 (some 1) 4 = some (h2, h1.length) ∧
      h1 <+: h2 ∧
      h2.readPageReference h1.length = h1.readPageReference sampleHeap.length ∧
      showPanelPageReferenceH sampleHeap (some 1) = some (h3, sampleHeap.length + 1) ∧
      sampleHeap <+: h3 ∧
      h3.readPageReference (sampleHeap.length + 1) = showPanelPageReference sampleComponent ∧
      noPanelPageReferenceH sampleHeap (some 1) = some (h4, sampleHeap.length + 1) ∧
      sampleHeap <+: h4 ∧
      h4.readPageReference (sampleHeap.length + 1) = noPanelPageReference sampleComponent :=
  getUpdatedPageReference_frame sampleHeap 1 4 samplePageReference
    (stringChanges [("a", "2"), ("b", "3")]) sampleComponent rfl (by decide) (by decide)

end CreateNewRecord
